import Mathlib

/-!
Shallow embedding of the Student-Finance-Tracker core
(record store `scripts/state.js`, validators `scripts/validators.js`,
search `scripts/search.js`) together with theorems settling the frozen
claims about them.

JavaScript values are embedded as an inductive `JSVal`; machine numbers are
modelled as `Option ℚ` (`none` = NaN; the app never produces infinities on
the paths the claims mention).  JS exceptions are modelled by `Except`.
The clock (`Date.now()` / `new Date().toISOString()`) is an explicit `Nat`
parameter threaded through the operations.
-/

namespace SFT

/-- JS whitespace class `\s` (also the set removed by `String#trim`), by
code point: space 32, tab 9, LF 10, CR 13, VT 11, FF 12, NBSP 160, Ogham
5760, the 8192–8202 range, LS 8232, PS 8233, NNBSP 8239, MMSP 8287,
ideographic space 12288, BOM 65279. -/
def jsIsSpace (c : Char) : Bool :=
  c.toNat = 32 || c.toNat = 9 || c.toNat = 10 || c.toNat = 13 ||
  c.toNat = 11 || c.toNat = 12 || c.toNat = 160 || c.toNat = 5760 ||
  (8192 ≤ c.toNat && c.toNat ≤ 8202) ||
  c.toNat = 8232 || c.toNat = 8233 || c.toNat = 8239 ||
  c.toNat = 8287 || c.toNat = 12288 || c.toNat = 65279

/-- JS line terminators (code points 10, 13, 8232, 8233), the characters
`.` does not match in a regex. -/
def jsIsLineTerm (c : Char) : Bool :=
  c.toNat = 10 || c.toNat = 13 || c.toNat = 8232 || c.toNat = 8233

/-- ASCII decimal digit `0`–`9` (code points 48–57), the regex class `\d`. -/
def isDigitB (c : Char) : Bool := 48 ≤ c.toNat && c.toNat ≤ 57

/-- Regex word-character class `\w` = `[A-Za-z0-9_]`. -/
def wordChar (c : Char) : Bool :=
  (97 ≤ c.toNat && c.toNat ≤ 122) || (65 ≤ c.toNat && c.toNat ≤ 90) ||
  isDigitB c || c.toNat = 95

/-- The digit characters used by JS `Number#toString(base)` for base ≤ 36:
`0`-`9` then lowercase `a`-`z`. -/
def b36Char (n : Nat) : Char :=
  if n < 10 then Char.ofNat (48 + n) else Char.ofNat (87 + n)

/-- Digit characters of `n` in base `b`, least significant first; the fuel
argument (any bound ≥ `n`) makes the recursion structural. -/
def b36Rev (b : Nat) : Nat → Nat → List Char
  | 0, _ => []
  | fuel + 1, n => if n = 0 then [] else b36Char (n % b) :: b36Rev b fuel (n / b)

/-- Digit characters of `n` in base `b`, most significant first, as produced
by JS `Number#toString(b)` for a natural number (`0` prints as `"0"`). -/
def natToBase (b n : Nat) : List Char :=
  if n = 0 then ['0'] else (b36Rev b n n).reverse

/-- Numeric value of a list of ASCII decimal digit characters. -/
def digitsVal (l : List Char) : Nat :=
  l.foldl (fun acc c => acc * 10 + (c.toNat - 48)) 0

/-- Strip an optional leading sign, reporting whether it was `-`. -/
def parseSign (s : List Char) : Bool × List Char :=
  match s with
  | c :: rest => if c = '-' then (true, rest) else if c = '+' then (false, rest) else (false, s)
  | [] => (false, s)

/-- Rational value of a parsed decimal literal: integer digits `d1`,
fraction digits `d2`, negated when `neg`. -/
def mkNum (neg : Bool) (d1 d2 : List Char) : ℚ :=
  (if neg then -1 else 1) * ((digitsVal d1 : ℚ) + (digitsVal d2 : ℚ) / (10 : ℚ) ^ d2.length)

/-- The fraction digits read by `parseFloat` after the integer digits: a
dot followed by the longest digit run, nothing otherwise. -/
def pfqFrac : List Char → List Char
  | '.' :: rest => rest.takeWhile isDigitB
  | _ => []

/-- Final assembly of `parseFloat`: NaN when no digit was read at all. -/
def pfqMk (neg : Bool) (d1 d2 : List Char) : Option ℚ :=
  if d1.isEmpty && d2.isEmpty then none else some (mkNum neg d1 d2)

/-- Models JS `parseFloat` on the decimal forms this app can feed it:
skip leading whitespace, optional sign, longest `digits[.digits]` prefix;
no digits at all gives NaN (`none`).  Exponent and `Infinity` forms are not
reachable here (the call site is guarded by the amount pattern) and are not
modelled. -/
def parseFloatQ (s : List Char) : Option ℚ :=
  match parseSign (s.dropWhile jsIsSpace) with
  | (neg, u) => pfqMk neg (u.takeWhile isDigitB) (pfqFrac (u.dropWhile isDigitB))

/-- Models JS `Number(string)`: trimmed-empty gives `0`; a full-string simple
decimal literal gives its value; anything else (including the hex, exponent
and `Infinity` forms this app never produces) gives NaN (`none`). -/
def jsStrToNumber (s : String) : Option ℚ :=
  let t := ((s.data.dropWhile jsIsSpace).reverse.dropWhile jsIsSpace).reverse
  if t.isEmpty then some 0
  else
    let p := parseSign t
    let d1 := p.2.takeWhile isDigitB
    let r1 := p.2.dropWhile isDigitB
    match r1 with
    | [] => if d1.isEmpty then none else some (mkNum p.1 d1 [])
    | '.' :: rest =>
      if !(rest.dropWhile isDigitB).isEmpty then none
      else if d1.isEmpty && rest.isEmpty then none
      else some (mkNum p.1 d1 rest)
    | _ => none

/-- Embedding of JavaScript runtime values.  Numbers are `Option ℚ`
(`none` = NaN); objects are association lists whose lookup order models the
precedence of spread-literal construction at the sites embedded below. -/
inductive JSVal : Type where
  | null : JSVal
  | undefined : JSVal
  | boolean : Bool → JSVal
  | number : Option ℚ → JSVal
  | str : String → JSVal
  | array : List JSVal → JSVal
  | object : List (String × JSVal) → JSVal

/-- JS truthiness: `null`, `undefined`, `false`, `0`, NaN and `""` are falsy. -/
def truthy : JSVal → Bool
  | .null => false
  | .undefined => false
  | .boolean b => b
  | .number no => match no with
    | none => false
    | some q => decide (q ≠ 0)
  | .str s => !s.data.isEmpty
  | .array _ => true
  | .object _ => true

/-- Models the JS `a || b` operator. -/
def orElse (a b : JSVal) : JSVal := if truthy a then a else b

/-- Decimal (or fraction fallback) rendering of a rational, standing in for
JS number-to-string; exact for the integers and finite decimals the app
manipulates.  Never inspected by the claims' theorems. -/
def qToString (q : ℚ) : String :=
  let sign := if q < 0 then "-" else ""
  let n := q.num.natAbs
  let d := q.den
  if d = 1 then sign ++ String.mk (natToBase 10 n)
  else
    match (List.range 64).find? (fun k => d ∣ 10 ^ k) with
    | some k =>
      let scaled := n * (10 ^ k / d)
      let digs := natToBase 10 scaled
      let padded := List.replicate (k + 1 - digs.length) '0' ++ digs
      let ip := padded.take (padded.length - k)
      let fp := ((padded.drop (padded.length - k)).reverse.dropWhile (· = '0')).reverse
      sign ++ String.mk ip ++ (if fp.isEmpty then "" else "." ++ String.mk fp)
    | none => sign ++ String.mk (natToBase 10 n) ++ "/" ++ String.mk (natToBase 10 d)

mutual

/-- Models the JS ToString coercion `String(v)`. -/
def jsToString : JSVal → String
  | .null => "null"
  | .undefined => "undefined"
  | .boolean b => if b then "true" else "false"
  | .number no => match no with
    | none => "NaN"
    | some q => qToString q
  | .str s => s
  | .array xs => String.intercalate "," (jsToStringElems xs)
  | .object _ => "[object Object]"

/-- Array elements stringify via `Array#join`: `null` and `undefined`
become the empty string. -/
def jsToStringElems : List JSVal → List String
  | [] => []
  | .null :: xs => "" :: jsToStringElems xs
  | .undefined :: xs => "" :: jsToStringElems xs
  | x :: xs => jsToString x :: jsToStringElems xs

end

/-- Models the JS ToNumber coercion `Number(v)`. -/
def jsToNumber : JSVal → Option ℚ
  | .null => some 0
  | .undefined => none
  | .boolean b => some (if b then 1 else 0)
  | .number no => no
  | .str s => jsStrToNumber s
  | .array xs => jsStrToNumber (jsToString (.array xs))
  | .object _ => none

/-- Property read `v.f`: throws a TypeError on `null`/`undefined`, looks the
name up on objects (first binding wins, matching how the object literals
below are assembled), and yields `undefined` on other values, which carry
none of the record field names. -/
def jsGet (v : JSVal) (f : String) : Except String JSVal :=
  match v with
  | .null => .error "TypeError"
  | .undefined => .error "TypeError"
  | .object fields =>
    .ok (match fields.lookup f with
         | some x => x
         | none => .undefined)
  | _ => .ok .undefined

/-- Total variant of `jsGet` for stating properties (`undefined` where the
effectful read would throw). -/
def fieldOf (v : JSVal) (f : String) : JSVal :=
  match jsGet v f with
  | .ok x => x
  | .error _ => .undefined

/-- Own enumerable fields, as consumed by object spread `{ ...v }`:
objects contribute their bindings, arrays their index-keyed elements,
primitives nothing (no field of this app's record shape). -/
def fieldsOf : JSVal → List (String × JSVal)
  | .object fs => fs
  | .array xs => xs.enum.map (fun p => (String.mk (natToBase 10 p.1), p.2))
  | _ => []

/-- JS strict equality `===` on the values the store compares: structural on
primitives, `false` across types, NaN never equal to anything.  Two distinct
composite values are never `===` in JS (reference equality); the model
returns `false` for composites, which agrees with every comparison the
embedded code performs (ids are primitives). -/
def jsStrictEq : JSVal → JSVal → Bool
  | .null, .null => true
  | .undefined, .undefined => true
  | .boolean a, .boolean b => a == b
  | .number a, .number b => match a, b with
    | some x, some y => x == y
    | _, _ => false
  | .str a, .str b => a == b
  | _, _ => false

/-- Models `String#trim` (removes the `jsIsSpace` class from both ends). -/
def jsTrim (s : String) : String :=
  String.mk (((s.data.dropWhile jsIsSpace).reverse.dropWhile jsIsSpace).reverse)

/-!
## Record store (`scripts/state.js`)

Module state `_records` / `_counter` becomes an explicit `StoreState`.
`Date.now()` and `new Date().toISOString()` become functions of an explicit
clock parameter `now : Nat` (milliseconds); within one synchronous store
operation the clock does not advance.  `saveRecords` (the persistence
transport) is external to the core and has no observable effect on it.
-/

/-- The store's module-level mutable state: the record collection and the id
counter (`_records`, `_counter`). -/
structure StoreState : Type where
  records : List JSVal
  counter : Nat

/-- Character form of `genId()`'s result for clock `now` and the
pre-incremented counter value `counter`:
`` `rec_${Date.now()}_${(++_counter).toString(36)}` ``. -/
def genIdChars (now counter : Nat) : List Char :=
  'r' :: 'e' :: 'c' :: '_' :: (natToBase 10 now ++ '_' :: natToBase 36 counter)

/-- String form of `genId()`'s result (the counter bump is threaded
explicitly at each call site, matching `++_counter`). -/
def genIdStr (now counter : Nat) : String :=
  String.mk (genIdChars now counter)

/-- Models `new Date().toISOString()` at clock `now`: an opaque nonempty
timestamp string, injective in the clock; the exact ISO format is irrelevant
to every claim. -/
def isoString (now : Nat) : String :=
  String.mk ('i' :: 's' :: 'o' :: ':' :: natToBase 10 now)

/-- Models `new Date().toISOString().slice(0, 10)` at clock `now` (the
current date string used as the `date` default). -/
def todayString (now : Nat) : String :=
  String.mk ('d' :: 'a' :: 't' :: 'e' :: ':' :: natToBase 10 now)

/-- `normalise(r)` from `state.js`: field reads may throw (TypeError on
`null`/`undefined`), each field is coerced exactly as in the source, and a
falsy `r.id` consumes one `genId()` (bumping the counter, which is threaded
through as `c`).  Returns the normalised record object and the new counter. -/
def normalise (now c : Nat) (r : JSVal) : Except String (JSVal × Nat) := do
  let idv ← jsGet r "id"
  let descv ← jsGet r "description"
  let amtv ← jsGet r "amount"
  let catv ← jsGet r "category"
  let datev ← jsGet r "date"
  let cav ← jsGet r "createdAt"
  let uav ← jsGet r "updatedAt"
  let idp := if truthy idv then (idv, c) else (JSVal.str (genIdStr now (c + 1)), c + 1)
  .ok (.object
    [ ("id", idp.1),
      ("description", .str (jsTrim (jsToString (orElse descv (.str ""))))),
      ("amount", .number (some ((jsToNumber amtv).getD 0))),
      ("category", .str (jsTrim (jsToString (orElse catv (.str "Other"))))),
      ("date", orElse datev (.str (todayString now))),
      ("createdAt", orElse cav (.str (isoString now))),
      ("updatedAt", orElse uav (.str (isoString now))) ], idp.2)

/-- Is the value of JS `typeof` type `'object'` and truthy, i.e. does
`!data || typeof data !== 'object'` NOT bail out?  (`typeof null` is
`'object'` but `null` is falsy; arrays are objects.) -/
def isObjectLike : JSVal → Bool
  | .object _ => true
  | .array _ => true
  | _ => false

/-- `addRecord(data)`: bail out with `null` on non-object input, otherwise
build `{ ...data, id: genId(), createdAt: iso, updatedAt: iso }` (literal
keys win over spread fields: they come first for the first-binding-wins
lookup), normalise it, append it and return it. -/
def addRecord (now : Nat) (st : StoreState) (data : JSVal) : Except String (JSVal × StoreState) :=
  if !truthy data || !isObjectLike data then .ok (.null, st)
  else do
    let merged := JSVal.object
      (("id", JSVal.str (genIdStr now (st.counter + 1))) ::
       ("createdAt", JSVal.str (isoString now)) ::
       ("updatedAt", JSVal.str (isoString now)) :: fieldsOf data)
    let p ← normalise now (st.counter + 1) merged
    .ok (p.1, ⟨st.records ++ [p.1], p.2⟩)

/-- `_records.findIndex(r => r.id === id)`: evaluates `r.id` left to right,
stopping at the first strict-equality hit (so a throwing element after the
hit is never touched). -/
def findIndexById : List JSVal → JSVal → Except String (Option Nat)
  | [], _ => .ok none
  | r :: rs, id => do
    let rid ← jsGet r "id"
    if jsStrictEq rid id then .ok (some 0)
    else do
      let o ← findIndexById rs id
      .ok (o.map (· + 1))

/-- `updateRecord(id, updates)`: not-found gives `null` and leaves the state
alone; otherwise merge `{ ..._records[idx], ...updates, id, createdAt:
prior.createdAt, updatedAt: iso }` (later literal keys win, hence they come
first for the first-binding-wins lookup), normalise, and write back in
place. -/
def updateRecord (now : Nat) (st : StoreState) (id : JSVal) (updates : List (String × JSVal)) :
    Except String (JSVal × StoreState) := do
  let found ← findIndexById st.records id
  match found with
  | none => .ok (.null, st)
  | some idx => do
    let prior := st.records.getD idx .undefined
    let ca ← jsGet prior "createdAt"
    let merged := JSVal.object
      (("updatedAt", JSVal.str (isoString now)) :: ("createdAt", ca) :: ("id", id) ::
       (updates ++ fieldsOf prior))
    let p ← normalise now st.counter merged
    .ok (p.1, ⟨st.records.set idx p.1, p.2⟩)

/-- `_records.filter(r => r.id !== id)`: evaluates `r.id` on every element. -/
def filterNotId : List JSVal → JSVal → Except String (List JSVal)
  | [], _ => .ok []
  | r :: rs, id => do
    let rid ← jsGet r "id"
    let rest ← filterNotId rs id
    if jsStrictEq rid id then .ok rest else .ok (r :: rest)

/-- `deleteRecord(id)`: reassigns the filtered array, then reports whether
the length changed (persistence is external). -/
def deleteRecord (st : StoreState) (id : JSVal) : Except String (Bool × StoreState) := do
  let kept ← filterNotId st.records id
  if kept.length ≠ st.records.length then .ok (true, ⟨kept, st.counter⟩)
  else .ok (false, ⟨kept, st.counter⟩)

/-- `_records.find(r => r.id === id)`, lazy like `findIndexById`. -/
def findById : List JSVal → JSVal → Except String (Option JSVal)
  | [], _ => .ok none
  | r :: rs, id => do
    let rid ← jsGet r "id"
    if jsStrictEq rid id then .ok (some r)
    else findById rs id

/-- `getRecord(id)`: the found record `|| null`. -/
def getRecord (st : StoreState) (id : JSVal) : Except String JSVal := do
  let o ← findById st.records id
  match o with
  | some r => .ok (if truthy r then r else .null)
  | none => .ok .null

/-- `recordsArray.map(r => normalise(r))` with the counter threaded through
(a throwing element aborts the whole map, leaving `_records` unassigned). -/
def mapNormalise (now : Nat) : Nat → List JSVal → Except String (List JSVal × Nat)
  | c, [] => .ok ([], c)
  | c, r :: rs => do
    let p ← normalise now c r
    let q ← mapNormalise now p.2 rs
    .ok (p.1 :: q.1, q.2)

/-- `replaceAll(recordsArray)`: `Array.isArray` gate, then map-normalise and
replace the collection wholesale. -/
def replaceAll (now : Nat) (st : StoreState) (v : JSVal) : Except String (Bool × StoreState) :=
  match v with
  | .array xs => do
    let p ← mapNormalise now st.counter xs
    .ok (true, ⟨p.1, p.2⟩)
  | _ => .ok (false, st)

/-!
## Statistics (`computeStats` in `scripts/state.js`)
-/

/-- JS `+` on numbers: NaN absorbing. -/
def jnAdd (a b : Option ℚ) : Option ℚ :=
  match a, b with
  | some x, some y => some (x + y)
  | _, _ => none

/-- JS `v > 0`: false when `v` is NaN. -/
def jnGtZero (v : Option ℚ) : Bool :=
  match v with
  | some q => decide (0 < q)
  | none => false

/-- One term of the amount sums: `Number(r.amount || 0)`. -/
def amountTerm (r : JSVal) : Except String (Option ℚ) := do
  let a ← jsGet r "amount"
  .ok (jsToNumber (orElse a (.number (some 0))))

/-- `reduce((acc, r) => acc + Number(r.amount || 0), 0)`. -/
def sumAmountsGo : Option ℚ → List JSVal → Except String (Option ℚ)
  | acc, [] => .ok acc
  | acc, r :: rs => do
    let t ← amountTerm r
    sumAmountsGo (jnAdd acc t) rs

/-- Sum of amounts of a record list, starting from `0`. -/
def sumAmounts (records : List JSVal) : Except String (Option ℚ) :=
  sumAmountsGo (some 0) records

/-- `categoryMap[cat] = (categoryMap[cat] || 0) + 1` on an insertion-ordered
association list (first occurrence fixes the position, as for JS object
string keys). -/
def bumpCat : List (String × Nat) → String → List (String × Nat)
  | [], k => [(k, 1)]
  | q :: rest, k => if q.1 = k then (q.1, q.2 + 1) :: rest else q :: bumpCat rest k

/-- The `records.forEach` loop building the category map; the key is the JS
property-key coercion of `r.category || 'Uncategorized'`. -/
def buildCatMapGo : List (String × Nat) → List JSVal → Except String (List (String × Nat))
  | m, [] => .ok m
  | m, r :: rs => do
    let cv ← jsGet r "category"
    buildCatMapGo (bumpCat m (jsToString (orElse cv (.str "Uncategorized")))) rs

/-- Stable insertion for descending-by-count order: an earlier entry stays
before later entries with the same count, matching the stable JS
`sort((a, b) => b[1] - a[1])`. -/
def insertByCount (p : String × Nat) : List (String × Nat) → List (String × Nat)
  | [] => [p]
  | q :: rest => if q.2 ≤ p.2 then p :: q :: rest else q :: insertByCount p rest

/-- Stable sort of the category entries by descending count. -/
def sortByCountDesc : List (String × Nat) → List (String × Nat)
  | [] => []
  | p :: rest => insertByCount p (sortByCountDesc rest)

/-- Models the day-granularity date string of day number `day`, as produced
by `toISOString().slice(0, 10)` inside the bucket loop; opaque and injective
in the day, the exact format being irrelevant to every claim. -/
def dayString (day : Nat) : String :=
  String.mk ('d' :: 'a' :: 'y' :: ':' :: natToBase 10 day)

/-- The 7 trailing day buckets, oldest to newest, today (day number `today`)
included: `d.setDate(d.getDate() - (6 - i))`. -/
def dayBuckets (today : Nat) : List String :=
  (List.range 7).map (fun i => dayString (today - (6 - i)))

/-- `records.filter(r => r.date === day)`. -/
def filterByDate : List JSVal → String → Except String (List JSVal)
  | [], _ => .ok []
  | r :: rs, day => do
    let dv ← jsGet r "date"
    let rest ← filterByDate rs day
    if jsStrictEq dv (.str day) then .ok (r :: rest) else .ok rest

/-- `dayBuckets.map(day => filter(...).reduce(sum))`. -/
def dailyTotalsOf (records : List JSVal) : List String → Except String (List (Option ℚ))
  | [] => .ok []
  | day :: days => do
    let f ← filterByDate records day
    let s ← sumAmounts f
    let rest ← dailyTotalsOf records days
    .ok (s :: rest)

/-- The stats summary returned by `computeStats`. -/
structure Stats : Type where
  total : Nat
  sum : Option ℚ
  topCategory : String
  categoryMap : List (String × Nat)
  last7Count : Nat
  last7Sum : Option ℚ
  dayBuckets : List String
  dailyTotals : List (Option ℚ)

/-- `computeStats(records)` at day number `today`.  The top category is
`sort desc [0]?.[0] || 'None'`: absent (empty collection) or a falsy
(empty-string) category name yields the `"None"` sentinel. -/
def computeStats (today : Nat) (records : List JSVal) : Except String Stats := do
  let sum ← sumAmounts records
  let catMap ← buildCatMapGo [] records
  let top := match (sortByCountDesc catMap).head? with
    | some p => if p.1 = "" then "None" else p.1
    | none => "None"
  let daily ← dailyTotalsOf records (dayBuckets today)
  .ok ⟨records.length, sum, top, catMap,
       daily.foldl (fun s v => s + (if jnGtZero v then 1 else 0)) 0,
       daily.foldl jnAdd (some 0), dayBuckets today, daily⟩

/-!
## Validators (`scripts/validators.js`)

Each regex of the pattern catalogue is translated into an executable
character-list predicate recognising exactly the same language (over the
code points this app manipulates; the JS regex classes `\s`, `\d`, `\w` and
`.` are mirrored by `jsIsSpace`, `isDigitB`, `wordChar`, `jsIsLineTerm`
above).
-/

/-- `description: /^\S(?:.*\S)?$/` — nonempty, no leading or trailing
whitespace character, and (because `.` matches no line terminator) no line
terminator strictly inside. -/
def descOkL : List Char → Bool
  | [] => false
  | [c] => !jsIsSpace c
  | c :: rest =>
    !jsIsSpace c && !jsIsSpace (rest.getLastD ' ') &&
    rest.dropLast.all (fun d => !jsIsLineTerm d)

/-- The integer-part alternative `(0|[1-9]\d*)`: the single digit `0`
(code point 48), or a leading `1`–`9` (49–57) followed by digits. -/
def intPartOk : List Char → Bool
  | [] => false
  | c :: rest =>
    (c.toNat = 48 && rest.isEmpty) || (49 ≤ c.toNat && c.toNat ≤ 57 && rest.all isDigitB)

/-- The fraction-part group `\.\d{1,2}` without the dot. -/
def fracPartOk (l : List Char) : Bool :=
  (l.length = 1 || l.length = 2) && l.all isDigitB

/-- `amount: /^(0|[1-9]\d*)(\.\d{1,2})?$/`.  Because `.` is not a digit the
match decomposes uniquely as the maximal digit prefix followed by an
optional dot and the one- or two-digit fraction. -/
def amountOkL (s : List Char) : Bool :=
  intPartOk (s.takeWhile isDigitB) &&
  (match s.dropWhile isDigitB with
   | [] => true
   | '.' :: fp => fracPartOk fp
   | _ => false)

/-- The month alternative `(0[1-9]|1[0-2])`. -/
def monthOk (a b : Char) : Bool :=
  (a = '0' && '1' ≤ b && b ≤ '9') || (a = '1' && (b = '0' || b = '1' || b = '2'))

/-- The day alternative `(0[1-9]|[12]\d|3[01])`. -/
def dayOk (a b : Char) : Bool :=
  (a = '0' && '1' ≤ b && b ≤ '9') ||
  ((a = '1' || a = '2') && isDigitB b) ||
  (a = '3' && (b = '0' || b = '1'))

/-- `date: /^\d{4}-(0[1-9]|1[0-2])-(0[1-9]|[12]\d|3[01])$/`. -/
def dateOkL : List Char → Bool
  | [y1, y2, y3, y4, '-', m1, m2, '-', d1, d2] =>
    isDigitB y1 && isDigitB y2 && isDigitB y3 && isDigitB y4 &&
    monthOk m1 m2 && dayOk d1 d2
  | _ => false

/-- ASCII letter, the class `[A-Za-z]`. -/
def isLetterB (c : Char) : Bool :=
  (97 ≤ c.toNat && c.toNat ≤ 122) || (65 ≤ c.toNat && c.toNat ≤ 90)

/-- DFA for `category: /^[A-Za-z]+(?:[ -][A-Za-z]+)*$/`; the flag records
whether at least one letter of the current run has been read. -/
def catScan : Bool → List Char → Bool
  | false, [] => false
  | false, c :: rest => isLetterB c && catScan true rest
  | true, [] => true
  | true, c :: rest =>
    if isLetterB c then catScan true rest
    else (c = ' ' || c = '-') && catScan false rest

/-- `category` pattern entry point. -/
def catOkL (s : List Char) : Bool := catScan false s

/-- The slice of `s` of length `a` starting at position `p`. -/
def seg (s : List Char) (p a : Nat) : List Char := (s.drop p).take a

/-- Case-insensitive equality of two character lists, the `i`-flag matching
of a back-reference (ASCII case folding, which covers the app's data). -/
def ciEqChars (a b : List Char) : Bool :=
  a.map Char.toLower == b.map Char.toLower

/-- `\b` just before position `p`, whose character is a word character. -/
def boundaryBefore (s : List Char) (p : Nat) : Bool :=
  p == 0 || !wordChar (s.getD (p - 1) ' ')

/-- `\b` just before position `q`, the character before `q` being a word
character. -/
def boundaryAfter (s : List Char) (q : Nat) : Bool :=
  q == s.length || !wordChar (s.getD q ' ')

/-- `duplicateWord: /\b(\w+)\s+\1\b/i` as an unanchored search: some
position carries a word-boundary, a nonempty word, nonempty whitespace and
a case-insensitive repetition of the word ending at a word boundary.
The existential over every split position and length is exactly what the
backtracking engine explores for `test`. -/
def dupWordL (s : List Char) : Bool :=
  (List.range s.length).any (fun p =>
    (List.range (s.length + 1)).any (fun a =>
      (List.range (s.length + 1)).any (fun b =>
        1 ≤ a && 1 ≤ b && p + a + b + a ≤ s.length &&
        boundaryBefore s p &&
        (seg s p a).all wordChar &&
        (seg s (p + a) b).all jsIsSpace &&
        (seg s (p + a + b) a).all wordChar &&
        ciEqChars (seg s p a) (seg s (p + a + b) a) &&
        boundaryAfter s (p + a + b + a))))

/-- The lookahead `(?=.*[1-9])` evaluated at the start of the string: some
later character lies in `[1-9]` (code points 49–57) with no line terminator
before it. -/
def nonZeroLookahead : List Char → Bool
  | [] => false
  | c :: rest =>
    (49 ≤ c.toNat && c.toNat ≤ 57) || (!jsIsLineTerm c && nonZeroLookahead rest)

/-- `nonZeroAmount: /^(?=.*[1-9])(0|[1-9]\d*)(\.\d{1,2})?$/`. -/
def nonZeroAmountOkL (s : List Char) : Bool :=
  nonZeroLookahead s && amountOkL s

/-- `validate(field, value)`: dispatch on the pattern-catalogue key;
unknown fields do not block. -/
def validate (field value : String) : Bool :=
  if field = "description" then descOkL value.data
  else if field = "amount" then amountOkL value.data
  else if field = "date" then dateOkL value.data
  else if field = "category" then catOkL value.data
  else if field = "duplicateWord" then dupWordL value.data
  else if field = "nonZeroAmount" then nonZeroAmountOkL value.data
  else true

/-- The `{ desc, amount, category, date }` argument of `validateForm`. -/
structure FormFields : Type where
  desc : String
  amount : String
  category : String
  date : String

/-- `validateForm(fields)`: the if-chain of `validators.js`, first failure
wins, `none` when all pass.  The greater-than-zero rule is
`parseFloat(amount) === 0` (strict equality: NaN is not `=== 0`). -/
def validateForm (f : FormFields) : Option String :=
  if !validate "description" f.desc then
    some "Description must not be empty or start/end with spaces."
  else if !validate "amount" f.amount then
    some "Amount must be a positive number with at most 2 decimal places."
  else if parseFloatQ f.amount.data = some 0 then
    some "Amount must be greater than zero."
  else if !validate "category" f.category then
    some "Category: letters only, words separated by a space or hyphen."
  else if !validate "date" f.date then
    some "Date must be in YYYY-MM-DD format."
  else if validate "duplicateWord" f.desc then
    some "Description contains a repeated word (e.g. \"lunch lunch\")."
  else none

/-!
## Search (`scripts/search.js`)

`new RegExp(pattern, flags)` is the JS engine's compiler; it is abstracted
as a `parse` argument returning `none` exactly when construction throws a
`SyntaxError` (the `try`/`catch` of `compileRegex`).  A compiled matcher for
`highlight` is abstracted as its leftmost-match function; the app compiles
every matcher with flags `'i'` only (never `'g'`), under which
`String#replace` rewrites only the leftmost match.
-/

/-- `compileRegex(input, flags)`: empty or whitespace-only input gives no
matcher, and a pattern the engine rejects gives no matcher (the caught
construction failure is `parse` returning `none`); the function itself is
total, never propagating a parse failure. -/
def compileRegex {RE : Type} (parse : String → String → Option RE) (input flags : String) :
    Option RE :=
  if !truthy (.str input) || !truthy (.str (jsTrim input)) then none
  else parse (jsTrim input) flags

/-- One record of `filterRecords`'s predicate, with the lazy `||` of the
source: later fields are not even read when an earlier one matches. -/
def recordMatches {RE : Type} (test : RE → String → Bool) (r : RE) (rec : JSVal) :
    Except String Bool := do
  let d ← jsGet rec "description"
  if test r (jsToString (orElse d (.str ""))) then .ok true
  else do
    let c ← jsGet rec "category"
    if test r (jsToString (orElse c (.str ""))) then .ok true
    else do
      let dt ← jsGet rec "date"
      .ok (test r (jsToString (orElse dt (.str ""))))

/-- The `records.filter` loop of `filterRecords` with a live matcher. -/
def filterRecordsGo {RE : Type} (test : RE → String → Bool) (r : RE) :
    List JSVal → Except String (List JSVal)
  | [] => .ok []
  | rec :: rs => do
    let b ← recordMatches test r rec
    let rest ← filterRecordsGo test r rs
    .ok (if b then rec :: rest else rest)

/-- `filterRecords(records, re)`: no matcher returns the input list itself. -/
def filterRecords {RE : Type} (test : RE → String → Bool) (records : List JSVal)
    (re : Option RE) : Except String (List JSVal) :=
  match re with
  | none => .ok records
  | some r => filterRecordsGo test r records

/-- A compiled matcher as consumed by `highlight`: its leftmost-match
function (start position and length).  The app's matchers carry no `g`
flag. -/
structure Matcher : Type where
  find : List Char → Option (Nat × Nat)

/-- `String#replace` with a non-global regex and a replacer function:
rewrite the leftmost match only. -/
def jsReplaceFirst (text : List Char) (m : Matcher) (wrap : List Char → List Char) :
    List Char :=
  match m.find text with
  | none => text
  | some pr => text.take pr.1 ++ wrap ((text.drop pr.1).take pr.2) ++ text.drop (pr.1 + pr.2)

/-- `highlight(text, re)`: unchanged without a matcher or on empty text;
otherwise `text.replace(re, m => ...)` wrapping the match in the
`<mark class="search-hit">` marker. -/
def highlight (text : String) (re : Option Matcher) : String :=
  match re with
  | none => text
  | some m =>
    if !truthy (.str text) then text
    else String.mk (jsReplaceFirst text.data m
      (fun mt => "<mark class=\"search-hit\">".data ++ mt ++ "</mark>".data))

/-!
## Helper lemmas
-/

@[simp]
theorem exceptBind_ok {α β : Type} (a : α) (f : α → Except String β) :
    (Except.ok a >>= f) = f a := rfl

theorem jsGet_ok_of_ne (v : JSVal) (h1 : v ≠ .null) (h2 : v ≠ .undefined) (f : String) :
    jsGet v f = .ok (fieldOf v f) := by
  cases v with
  | null => exact absurd rfl h1
  | undefined => exact absurd rfl h2
  | boolean b => rfl
  | number n => rfl
  | str s => rfl
  | array xs => rfl
  | object fs => rfl

theorem normalise_ok (now c : Nat) (r : JSVal) (h1 : r ≠ .null) (h2 : r ≠ .undefined) :
    ∃ p, normalise now c r = .ok p := by
  cases r with
  | null => exact absurd rfl h1
  | undefined => exact absurd rfl h2
  | boolean b => exact ⟨_, rfl⟩
  | number n => exact ⟨_, rfl⟩
  | str s => exact ⟨_, rfl⟩
  | array xs => exact ⟨_, rfl⟩
  | object fs => exact ⟨_, rfl⟩

theorem mapNormalise_ok (now : Nat) (xs : List JSVal)
    (h : ∀ x ∈ xs, x ≠ JSVal.null ∧ x ≠ JSVal.undefined) :
    ∀ c, ∃ p, mapNormalise now c xs = .ok p ∧ p.1.length = xs.length := by
  induction xs with
  | nil => exact fun c => ⟨([], c), rfl, rfl⟩
  | cons x rest ih =>
    intro c
    obtain ⟨hx1, hx2⟩ := h x (List.mem_cons_self x rest)
    obtain ⟨q, hq⟩ := normalise_ok now c x hx1 hx2
    obtain ⟨p, hp, hlen⟩ := ih (fun y hy => h y (List.mem_cons_of_mem x hy)) q.2
    refine ⟨(q.1 :: p.1, p.2), ?_, by simpa using hlen⟩
    simp [mapNormalise, hq, hp]

/-!
## Claim theorems
-/

/-- C9: on the empty record collection, `computeStats` yields total 0,
sum 0, the explicit `"None"` top-category sentinel, all seven daily totals
0, hence `last7Count` 0 and `last7Sum` 0 (and an empty category map). -/
theorem computeStats_empty_C9 (today : Nat) :
    computeStats today [] = .ok ⟨0, some 0, "None", [], 0, some 0,
      dayBuckets today, List.replicate 7 (some 0)⟩ := by
  have h0 : computeStats today [] = .ok ⟨0, some 0, "None", [],
      (List.replicate 7 (some (0 : ℚ))).foldl
        (fun s v => s + (if jnGtZero v then 1 else 0)) 0,
      (List.replicate 7 (some (0 : ℚ))).foldl jnAdd (some 0),
      dayBuckets today, List.replicate 7 (some 0)⟩ := rfl
  have h1 : (List.replicate 7 (some (0 : ℚ))).foldl
      (fun s v => s + (if jnGtZero v then 1 else 0)) 0 = 0 := by
    norm_num [jnGtZero, List.replicate]
  have h2 : (List.replicate 7 (some (0 : ℚ))).foldl jnAdd (some 0) = some 0 := by
    norm_num [jnAdd, List.replicate]
  rw [h0, h1, h2]

/-- C7: `replaceAll` on any non-list input is a no-op returning the failure
value `false`, with the prior collection (and counter) left intact. -/
theorem replaceAll_non_list_C7 (now : Nat) (st : StoreState) (v : JSVal)
    (h : isObjectLike v = false ∨ ∃ fs, v = JSVal.object fs) :
    replaceAll now st v = .ok (false, st) := by
  cases v with
  | array xs =>
    rcases h with h | ⟨fs, h⟩
    · exact absurd h (by simp [isObjectLike])
    · cases h
  | null => rfl
  | undefined => rfl
  | boolean b => rfl
  | number n => rfl
  | str s => rfl
  | object fs => rfl

/-- C7 witness: a string input is rejected with `false` and the one-record
state survives untouched. -/
theorem replaceAll_non_list_C7_witness :
    replaceAll 3 ⟨[JSVal.object [("id", JSVal.str "a")]], 1⟩ (JSVal.str "nope") =
      .ok (false, ⟨[JSVal.object [("id", JSVal.str "a")]], 1⟩) :=
  replaceAll_non_list_C7 3 ⟨[JSVal.object [("id", JSVal.str "a")]], 1⟩ (JSVal.str "nope")
    (Or.inl rfl)

/-- A concrete compiled matcher standing for the regex `/a/i` (or any
single-character case-insensitive pattern): leftmost case-insensitive
occurrence of the character, match length 1. -/
def charMatcher (t : Char) : Matcher :=
  ⟨fun l => match l.findIdx? (fun c => c.toLower = t.toLower) with
            | some i => some (i, 1)
            | none => none⟩

/-- C1: with the matcher the app compiles (flags `'i'`, no `'g'`),
`highlight` wraps only the first occurrence, not every non-overlapping
occurrence: on `"aa"` with a matcher for `a` the second occurrence stays
bare, contradicting the claim (and the function's own doc comment), while
the absent-matcher and empty-text clauses do hold. -/
theorem highlight_first_only_C1 :
    highlight "aa" (some (charMatcher 'a')) = "<mark class=\"search-hit\">a</mark>a" ∧
    highlight "aa" (some (charMatcher 'a')) ≠
      "<mark class=\"search-hit\">a</mark><mark class=\"search-hit\">a</mark>" ∧
    highlight "" (some (charMatcher 'a')) = "" ∧
    highlight "aa" none = "aa" := by
  refine ⟨by decide, by decide, rfl, rfl⟩

/-- C3: the search compiler is total and never propagates a failure:
whitespace-only (or empty) input compiles to no matcher, a pattern the
engine rejects (`parse` returning `none` models the caught construction
failure) compiles to no matcher, and filtering with no matcher returns the
input list itself, in order. -/
theorem compileRegex_safe_C3 {RE : Type} (parse : String → String → Option RE)
    (input flags : String) :
    (jsTrim input = "" → compileRegex parse input flags = none) ∧
    (parse (jsTrim input) flags = none → compileRegex parse input flags = none) ∧
    (∀ (test : RE → String → Bool) (records : List JSVal),
      filterRecords test records none = .ok records) := by
  refine ⟨fun h => ?_, fun h => ?_, fun test records => rfl⟩
  · simp [compileRegex, h, truthy]
  · by_cases hc : (!truthy (.str input) || !truthy (.str (jsTrim input))) = true
    · simp [compileRegex, hc]
    · simp [compileRegex, hc, h]

/-- C3 witness: whitespace-only input and an always-failing parse both give
no matcher, and a no-matcher filter is the identity on a sample list. -/
theorem compileRegex_safe_C3_witness :
    compileRegex (fun _ _ => (none : Option Unit)) "   " "i" = none ∧
    filterRecords (fun _ _ => true) [JSVal.object [("id", JSVal.str "a")]]
      (none : Option Unit) = .ok [JSVal.object [("id", JSVal.str "a")]] :=
  ⟨(compileRegex_safe_C3 (fun _ _ => (none : Option Unit)) "   " "i").1 (by decide),
   (compileRegex_safe_C3 (fun _ _ => (none : Option Unit)) "   " "i").2.2
     (fun _ _ => true) [JSVal.object [("id", JSVal.str "a")]]⟩

/-- C2 counterexample: `replaceAll` on the list `[null]` throws a TypeError
(the property read `r.id` inside `normalise` on a `null` element), so it is
not true that every list-shaped input is accepted without raising. -/
theorem replaceAll_null_element_throws_C2 :
    replaceAll 0 ⟨[], 0⟩ (JSVal.array [JSVal.null]) = .error "TypeError" := rfl

/-- C2 (amended): for every list input whose elements are all non-`null`
and non-`undefined`, `replaceAll` coerces every element (primitives and
partial objects included), never raises, replaces the whole collection
(one output record per input element) and returns success. -/
theorem replaceAll_list_lenient_C2 (now : Nat) (st : StoreState) (xs : List JSVal)
    (h : ∀ x ∈ xs, x ≠ JSVal.null ∧ x ≠ JSVal.undefined) :
    ∃ st', replaceAll now st (.array xs) = .ok (true, st') ∧
      st'.records.length = xs.length := by
  obtain ⟨p, hp, hlen⟩ := mapNormalise_ok now xs h st.counter
  exact ⟨⟨p.1, p.2⟩, by simp [replaceAll, hp], hlen⟩

/-- C2 witness: a number, a bare string and a partial object — all
malformed records — are coerced, not rejected: `replaceAll` succeeds and
stores three records. -/
theorem replaceAll_list_lenient_C2_witness :
    ∃ st', replaceAll 3 ⟨[], 0⟩
        (.array [JSVal.number (some 5), JSVal.str "x",
                 JSVal.object [("description", JSVal.str "tea")]]) =
      .ok (true, st') ∧ st'.records.length = 3 :=
  replaceAll_list_lenient_C2 3 ⟨[], 0⟩
    [JSVal.number (some 5), JSVal.str "x", JSVal.object [("description", JSVal.str "tea")]]
    (by intro x hx
        simp only [List.mem_cons, List.not_mem_nil, or_false] at hx
        rcases hx with h | h | h
        all_goals subst h
        all_goals exact ⟨(fun hh => nomatch hh), (fun hh => nomatch hh)⟩)

theorem filterNotId_spec (id : JSVal) :
    ∀ l : List JSVal, (∀ r ∈ l, r ≠ JSVal.null ∧ r ≠ JSVal.undefined) →
      filterNotId l id = .ok (l.filter (fun r => !jsStrictEq (fieldOf r "id") id)) := by
  intro l
  induction l with
  | nil => intro _; rfl
  | cons r rs ih =>
    intro h
    obtain ⟨h1, h2⟩ := h r (List.mem_cons_self r rs)
    have hget := jsGet_ok_of_ne r h1 h2 "id"
    have hrest := ih (fun y hy => h y (List.mem_cons_of_mem r hy))
    simp only [filterNotId, hget, exceptBind_ok, hrest, List.filter_cons]
    cases hq : jsStrictEq (fieldOf r "id") id <;> simp [hq]

theorem findById_none (id : JSVal) :
    ∀ l : List JSVal, (∀ r ∈ l, r ≠ JSVal.null ∧ r ≠ JSVal.undefined) →
      (∀ r ∈ l, jsStrictEq (fieldOf r "id") id = false) →
      findById l id = .ok none := by
  intro l
  induction l with
  | nil => intro _ _; rfl
  | cons r rs ih =>
    intro h hm
    obtain ⟨h1, h2⟩ := h r (List.mem_cons_self r rs)
    have hget := jsGet_ok_of_ne r h1 h2 "id"
    simp only [findById, hget, exceptBind_ok, hm r (List.mem_cons_self r rs)]
    simpa using ih (fun y hy => h y (List.mem_cons_of_mem r hy))
      (fun y hy => hm y (List.mem_cons_of_mem r hy))

/-- C8: over any collection of readable (non-`null`/`undefined`) records,
`delete` never throws, `get` on the deleted id afterwards returns the
not-found value `null` (whether or not the id was present), the boolean
outcome is `true` exactly when some record carried the id, and a `false`
outcome leaves the collection (hence its size) unaltered. -/
theorem deleteRecord_then_get_C8 (st : StoreState) (id : JSVal)
    (h : ∀ r ∈ st.records, r ≠ JSVal.null ∧ r ≠ JSVal.undefined) :
    ∃ b st', deleteRecord st id = .ok (b, st') ∧
      getRecord st' id = .ok JSVal.null ∧
      (b = true ↔ ∃ r ∈ st.records, jsStrictEq (fieldOf r "id") id = true) ∧
      (b = false → st'.records = st.records) := by
  have hf := filterNotId_spec id st.records h
  have hknn : ∀ r ∈ st.records.filter (fun r => !jsStrictEq (fieldOf r "id") id),
      r ≠ JSVal.null ∧ r ≠ JSVal.undefined :=
    fun r hr => h r (List.mem_of_mem_filter hr)
  have hkm : ∀ r ∈ st.records.filter (fun r => !jsStrictEq (fieldOf r "id") id),
      jsStrictEq (fieldOf r "id") id = false := by
    intro r hr
    simpa using (List.mem_filter.mp hr).2
  have hget : getRecord ⟨st.records.filter (fun r => !jsStrictEq (fieldOf r "id") id),
      st.counter⟩ id = .ok JSVal.null := by
    simp only [getRecord]
    simp [findById_none id _ hknn hkm]
  by_cases hlen : (st.records.filter (fun r => !jsStrictEq (fieldOf r "id") id)).length =
      st.records.length
  · have hall := List.filter_length_eq_length.mp hlen
    refine ⟨false, _, ?_, hget, ?_, fun _ => List.filter_eq_self.mpr hall⟩
    · simp [deleteRecord, hf, hlen]
    · constructor
      · intro hb; cases hb
      · rintro ⟨r, hr, hmatch⟩
        have := hall r hr
        rw [hmatch] at this
        cases this
  · refine ⟨true, _, ?_, hget, ?_, fun hb => by cases hb⟩
    · simp [deleteRecord, hf, hlen]
    · refine ⟨fun _ => ?_, fun _ => rfl⟩
      by_contra hno
      push_neg at hno
      refine hlen (List.filter_length_eq_length.mpr ?_)
      intro a ha
      have := hno a ha
      simp only [Bool.not_eq_true] at this
      simp [this]

/-- C8 witness: delete an existing id from a two-record store: outcome
`true`, and the follow-up `get` reports not-found. -/
theorem deleteRecord_then_get_C8_witness :
    ∃ b st', deleteRecord ⟨[JSVal.object [("id", JSVal.str "a")],
        JSVal.object [("id", JSVal.str "b")]], 2⟩ (JSVal.str "a") = .ok (b, st') ∧
      getRecord st' (JSVal.str "a") = .ok JSVal.null ∧
      (b = true ↔ ∃ r ∈ [JSVal.object [("id", JSVal.str "a")],
        JSVal.object [("id", JSVal.str "b")]],
        jsStrictEq (fieldOf r "id") (JSVal.str "a") = true) ∧
      (b = false → st'.records = [JSVal.object [("id", JSVal.str "a")],
        JSVal.object [("id", JSVal.str "b")]]) :=
  deleteRecord_then_get_C8
    ⟨[JSVal.object [("id", JSVal.str "a")], JSVal.object [("id", JSVal.str "b")]], 2⟩
    (JSVal.str "a")
    (by intro r hr
        simp only [List.mem_cons, List.not_mem_nil, or_false] at hr
        rcases hr with h | h
        all_goals subst h
        all_goals exact ⟨(fun hh => nomatch hh), (fun hh => nomatch hh)⟩)

theorem parseFloatQ_ten : parseFloatQ ['1', '0'] = some 10 := by
  have e : parseFloatQ ['1', '0'] = some (mkNum false ['1', '0'] []) := rfl
  have h1 : digitsVal ['1', '0'] = 10 := by decide
  rw [e]
  simp [mkNum, h1, digitsVal]

theorem parseFloatQ_zero_zero : parseFloatQ ['0', '.', '0', '0'] = some 0 := by
  have e : parseFloatQ ['0', '.', '0', '0'] = some (mkNum false ['0'] ['0', '0']) := rfl
  rw [e]
  simp [mkNum, digitsVal]

/-- C4: `validateForm` checks the rules in source order, stopping at the
first failure with that rule's message and yielding the no-error sentinel
`none` when all pass; concretely, `"tea tea"` fails last with the
duplicate-word error, amount `"0.00"` fails the greater-than-zero rule,
date `"2026-02-30"` passes the date pattern, category `"Food-Delivery"`
passes, and `" Food"` fails the category rule. -/
theorem validateForm_order_C4 :
    (∀ f : FormFields, validate "description" f.desc = false →
      validateForm f = some "Description must not be empty or start/end with spaces.") ∧
    (∀ f : FormFields, validate "description" f.desc = true →
      validate "amount" f.amount = false →
      validateForm f = some "Amount must be a positive number with at most 2 decimal places.") ∧
    (∀ f : FormFields, validate "description" f.desc = true →
      validate "amount" f.amount = true → parseFloatQ f.amount.data = some 0 →
      validateForm f = some "Amount must be greater than zero.") ∧
    (∀ f : FormFields, validate "description" f.desc = true →
      validate "amount" f.amount = true → parseFloatQ f.amount.data ≠ some 0 →
      validate "category" f.category = false →
      validateForm f = some "Category: letters only, words separated by a space or hyphen.") ∧
    (∀ f : FormFields, validate "description" f.desc = true →
      validate "amount" f.amount = true → parseFloatQ f.amount.data ≠ some 0 →
      validate "category" f.category = true → validate "date" f.date = false →
      validateForm f = some "Date must be in YYYY-MM-DD format.") ∧
    (∀ f : FormFields, validate "description" f.desc = true →
      validate "amount" f.amount = true → parseFloatQ f.amount.data ≠ some 0 →
      validate "category" f.category = true → validate "date" f.date = true →
      validate "duplicateWord" f.desc = true →
      validateForm f = some "Description contains a repeated word (e.g. \"lunch lunch\").") ∧
    (∀ f : FormFields, validate "description" f.desc = true →
      validate "amount" f.amount = true → parseFloatQ f.amount.data ≠ some 0 →
      validate "category" f.category = true → validate "date" f.date = true →
      validate "duplicateWord" f.desc = false →
      validateForm f = none) ∧
    validateForm ⟨"tea tea", "10", "Food", "2026-01-02"⟩ =
      some "Description contains a repeated word (e.g. \"lunch lunch\")." ∧
    validateForm ⟨"Lunch", "0.00", "Food", "2026-01-02"⟩ =
      some "Amount must be greater than zero." ∧
    validateForm ⟨"Lunch", "10", "Food", "2026-02-30"⟩ = none ∧
    validateForm ⟨"Lunch", "10", "Food-Delivery", "2026-01-02"⟩ = none ∧
    validateForm ⟨"Lunch", "10", " Food", "2026-01-02"⟩ =
      some "Category: letters only, words separated by a space or hyphen." := by
  have hten : parseFloatQ "10".data ≠ some 0 := by
    rw [parseFloatQ_ten]; norm_num
  refine ⟨?_, ?_, ?_, ?_, ?_, ?_, ?_, ?_, ?_, ?_, ?_, ?_⟩
  · intro f h; simp [validateForm, h]
  · intro f h1 h2; simp [validateForm, h1, h2]
  · intro f h1 h2 h3; simp [validateForm, h1, h2, h3]
  · intro f h1 h2 h3 h4; simp [validateForm, h1, h2, h3, h4]
  · intro f h1 h2 h3 h4 h5; simp [validateForm, h1, h2, h3, h4, h5]
  · intro f h1 h2 h3 h4 h5 h6; simp [validateForm, h1, h2, h3, h4, h5, h6]
  · intro f h1 h2 h3 h4 h5 h6; simp [validateForm, h1, h2, h3, h4, h5, h6]
  · have hd : validate "description" "tea tea" = true := by decide
    have ha : validate "amount" "10" = true := by decide
    have hc : validate "category" "Food" = true := by decide
    have hdt : validate "date" "2026-01-02" = true := by decide
    have hw : validate "duplicateWord" "tea tea" = true := by decide
    simp [validateForm, hd, ha, hc, hdt, hw, hten]
  · have hd : validate "description" "Lunch" = true := by decide
    have ha : validate "amount" "0.00" = true := by decide
    simp [validateForm, hd, ha, parseFloatQ_zero_zero]
  · have hd : validate "description" "Lunch" = true := by decide
    have ha : validate "amount" "10" = true := by decide
    have hc : validate "category" "Food" = true := by decide
    have hdt : validate "date" "2026-02-30" = true := by decide
    have hw : validate "duplicateWord" "Lunch" = false := by decide
    simp [validateForm, hd, ha, hc, hdt, hw, hten]
  · have hd : validate "description" "Lunch" = true := by decide
    have ha : validate "amount" "10" = true := by decide
    have hc : validate "category" "Food-Delivery" = true := by decide
    have hdt : validate "date" "2026-01-02" = true := by decide
    have hw : validate "duplicateWord" "Lunch" = false := by decide
    simp [validateForm, hd, ha, hc, hdt, hw, hten]
  · have hd : validate "description" "Lunch" = true := by decide
    have ha : validate "amount" "10" = true := by decide
    have hc : validate "category" " Food" = false := by decide
    simp [validateForm, hd, ha, hc, hten]

/-- C4 witness: a description with leading whitespace trips the very first
rule. -/
theorem validateForm_order_C4_witness :
    validateForm ⟨" padded", "10", "Food", "2026-01-02"⟩ =
      some "Description must not be empty or start/end with spaces." :=
  validateForm_order_C4.1 ⟨" padded", "10", "Food", "2026-01-02"⟩ (by decide)

theorem takeWhile_all {α : Type} (p : α → Bool) :
    ∀ l : List α, ∀ c ∈ l.takeWhile p, p c = true := by
  intro l
  induction l with
  | nil => intro c hc; cases hc
  | cons a tl ih =>
    intro c hc
    by_cases ha : p a = true
    · rw [List.takeWhile_cons_of_pos ha] at hc
      rcases List.mem_cons.mp hc with rfl | hc
      · exact ha
      · exact ih c hc
    · rw [List.takeWhile_cons_of_neg ha] at hc
      cases hc

theorem takeWhile_eq_self_of_all {α : Type} (p : α → Bool) :
    ∀ l : List α, (∀ c ∈ l, p c = true) → l.takeWhile p = l := by
  intro l
  induction l with
  | nil => intro _; rfl
  | cons a tl ih =>
    intro h
    rw [List.takeWhile_cons_of_pos (h a (List.mem_cons_self a tl))]
    rw [ih (fun c hc => h c (List.mem_cons_of_mem a hc))]

theorem isDigitB_bounds {c : Char} (h : isDigitB c = true) :
    48 ≤ c.toNat ∧ c.toNat ≤ 57 := by
  simpa [isDigitB] using h

theorem digit_not_space {c : Char} (h : isDigitB c = true) : jsIsSpace c = false := by
  obtain ⟨h1, h2⟩ := isDigitB_bounds h
  by_contra hsp
  rw [Bool.not_eq_false] at hsp
  simp only [jsIsSpace, Bool.or_eq_true, Bool.and_eq_true, decide_eq_true_eq] at hsp
  omega

theorem digit_or_dot_not_lineterm {c : Char}
    (h : isDigitB c = true ∨ c.toNat = 46) : jsIsLineTerm c = false := by
  have hb : 46 ≤ c.toNat ∧ c.toNat ≤ 57 := by
    rcases h with h | h
    · obtain ⟨h1, h2⟩ := isDigitB_bounds h
      omega
    · omega
  by_contra hlt
  rw [Bool.not_eq_false] at hlt
  simp only [jsIsLineTerm, Bool.or_eq_true, decide_eq_true_eq] at hlt
  omega

theorem parseSign_digit {c : Char} (tl : List Char) (h : isDigitB c = true) :
    parseSign (c :: tl) = (false, c :: tl) := by
  obtain ⟨h1, h2⟩ := isDigitB_bounds h
  have hm : c ≠ '-' := by
    intro he
    rw [he] at h1
    exact absurd h1 (by decide)
  have hp : c ≠ '+' := by
    intro he
    rw [he] at h1
    exact absurd h1 (by decide)
  simp [parseSign, hm, hp]

theorem digitsValGo (l : List Char) :
    ∀ acc : Nat, l.foldl (fun a c => a * 10 + (c.toNat - 48)) acc =
      acc * 10 ^ l.length + digitsVal l := by
  induction l with
  | nil => intro acc; simp [digitsVal]
  | cons c tl ih =>
    intro acc
    show List.foldl (fun a c => a * 10 + (c.toNat - 48))
      (acc * 10 + (c.toNat - 48)) tl = acc * 10 ^ (c :: tl).length + digitsVal (c :: tl)
    rw [ih]
    have hc : digitsVal (c :: tl) = (c.toNat - 48) * 10 ^ tl.length + digitsVal tl := by
      show List.foldl (fun a c => a * 10 + (c.toNat - 48))
        (0 * 10 + (c.toNat - 48)) tl = _
      rw [show 0 * 10 + (c.toNat - 48) = c.toNat - 48 by omega, ih]
    rw [hc, List.length_cons]
    ring

theorem digitsVal_cons (c : Char) (tl : List Char) :
    digitsVal (c :: tl) = (c.toNat - 48) * 10 ^ tl.length + digitsVal tl := by
  show List.foldl (fun a c => a * 10 + (c.toNat - 48)) (0 * 10 + (c.toNat - 48)) tl = _
  rw [show 0 * 10 + (c.toNat - 48) = c.toNat - 48 by omega, digitsValGo]

theorem digitsVal_eq_zero_iff (l : List Char) (hd : ∀ c ∈ l, isDigitB c = true) :
    (digitsVal l = 0 ↔ ∀ c ∈ l, c.toNat = 48) := by
  induction l with
  | nil => simp [digitsVal]
  | cons c tl ih =>
    have hc := isDigitB_bounds (hd c (List.mem_cons_self c tl))
    have ihtl := ih (fun x hx => hd x (List.mem_cons_of_mem c hx))
    rw [digitsVal_cons]
    have hpow : 0 < 10 ^ tl.length := Nat.pos_pow_of_pos _ (by norm_num)
    constructor
    · intro hz
      have hc0 : c.toNat - 48 = 0 := by
        have h := Nat.eq_zero_of_add_eq_zero_right hz
        rcases Nat.mul_eq_zero.mp h with h | h
        · exact h
        · omega
      intro x hx
      rcases List.mem_cons.mp hx with rfl | hx
      · omega
      · exact (ihtl.mp (by omega)) x hx
    · intro hall
      have h1 : c.toNat = 48 := hall c (List.mem_cons_self c tl)
      have h2 : digitsVal tl = 0 :=
        ihtl.mpr (fun x hx => hall x (List.mem_cons_of_mem c hx))
      rw [h1, h2]
      simp

theorem nonZeroLookahead_iff (s : List Char)
    (hnl : ∀ c ∈ s, jsIsLineTerm c = false) :
    (nonZeroLookahead s = true ↔ ∃ c ∈ s, 49 ≤ c.toNat ∧ c.toNat ≤ 57) := by
  induction s with
  | nil => simp [nonZeroLookahead]
  | cons c tl ih =>
    have h1 := hnl c (List.mem_cons_self c tl)
    have ihtl := ih (fun x hx => hnl x (List.mem_cons_of_mem c hx))
    simp only [nonZeroLookahead, h1, Bool.not_false, Bool.true_and,
      Bool.or_eq_true, Bool.and_eq_true, decide_eq_true_eq, ihtl]
    constructor
    · rintro (⟨ha, hb⟩ | ⟨x, hx, hb⟩)
      · exact ⟨c, List.mem_cons_self c tl, ha, hb⟩
      · exact ⟨x, List.mem_cons_of_mem c hx, hb⟩
    · rintro ⟨x, hx, hb⟩
      rcases List.mem_cons.mp hx with rfl | hx
      · exact Or.inl hb
      · exact Or.inr ⟨x, hx, hb⟩

theorem mkNum_false_eq_zero_iff (d1 d2 : List Char) :
    (mkNum false d1 d2 = 0 ↔ digitsVal d1 = 0 ∧ digitsVal d2 = 0) := by
  unfold mkNum
  rw [if_neg (by simp), one_mul]
  have hpow : ((10 : ℚ)) ^ d2.length ≠ 0 := by positivity
  constructor
  · intro hz
    have ha : (0 : ℚ) ≤ (digitsVal d1 : ℚ) := Nat.cast_nonneg _
    have hb : (0 : ℚ) ≤ (digitsVal d2 : ℚ) / 10 ^ d2.length := by positivity
    obtain ⟨h1, h2⟩ := (add_eq_zero_iff_of_nonneg ha hb).mp hz
    rw [div_eq_zero_iff] at h2
    rcases h2 with h2 | h2
    · exact ⟨Nat.cast_eq_zero.mp h1, Nat.cast_eq_zero.mp h2⟩
    · exact absurd h2 hpow
  · rintro ⟨h1, h2⟩
    simp [h1, h2]

theorem parseFloatQ_digit_head (c : Char) (tl : List Char) (hc : isDigitB c = true) :
    parseFloatQ (c :: tl) =
      some (mkNum false ((c :: tl).takeWhile isDigitB)
        (pfqFrac ((c :: tl).dropWhile isDigitB))) := by
  have hns : ¬ jsIsSpace c = true := by
    rw [digit_not_space hc]; exact Bool.false_ne_true
  unfold parseFloatQ
  rw [List.dropWhile_cons_of_neg hns, parseSign_digit tl hc]
  show pfqMk false ((c :: tl).takeWhile isDigitB)
    (pfqFrac ((c :: tl).dropWhile isDigitB)) = _
  unfold pfqMk
  rw [if_neg]
  intro hcon
  rw [List.takeWhile_cons_of_pos hc] at hcon
  simp at hcon

theorem exists19_iff_not_all48 (l : List Char) (hd : ∀ c ∈ l, isDigitB c = true) :
    ((∃ c ∈ l, 49 ≤ c.toNat ∧ c.toNat ≤ 57) ↔ ¬ (∀ c ∈ l, c.toNat = 48)) := by
  constructor
  · rintro ⟨c, hc, h1, h2⟩ hall
    have := hall c hc
    omega
  · intro hno
    push_neg at hno
    obtain ⟨c, hc, hne⟩ := hno
    have hb := isDigitB_bounds (hd c hc)
    exact ⟨c, hc, by omega, hb.2⟩

/-- C10: on every string accepted by the amount pattern, the catalogued
`nonZeroAmount` pattern (lookahead for a non-zero digit) succeeds exactly
when the parsed numeric value is non-zero — so `validateForm`'s
`parseFloat(amount) === 0` rejection is equivalent to requiring the
catalogued pattern. -/
theorem nonZeroAmount_refines_C10 (s : List Char) (h : amountOkL s = true) :
    (nonZeroAmountOkL s = true ↔ parseFloatQ s ≠ some 0) := by
  have h' := h
  unfold amountOkL at h'
  rw [Bool.and_eq_true] at h'
  obtain ⟨hip, hrest⟩ := h'
  rcases htake : s.takeWhile isDigitB with _ | ⟨c0, ip'⟩
  · rw [htake] at hip
    exact absurd hip (by decide)
  rw [htake] at hip
  have hs : s = (c0 :: ip') ++ s.dropWhile isDigitB := by
    conv_lhs => rw [← List.takeWhile_append_dropWhile (p := isDigitB) (l := s)]
    rw [htake]
  have hdigits : ∀ x ∈ c0 :: ip', isDigitB x = true := by
    intro x hx
    exact takeWhile_all isDigitB s x (htake ▸ hx)
  have hc0 : isDigitB c0 = true := hdigits c0 (List.mem_cons_self _ _)
  split at hrest
  case h_1 heq =>
    -- no fraction part: s is exactly the digit run
    rw [heq, List.append_nil] at hs
    subst hs
    have hpf : parseFloatQ (c0 :: ip') = some (mkNum false (c0 :: ip') []) := by
      rw [parseFloatQ_digit_head c0 ip' hc0, htake, heq]
      rfl
    have hnl : ∀ c ∈ c0 :: ip', jsIsLineTerm c = false := fun c hc =>
      digit_or_dot_not_lineterm (Or.inl (hdigits c hc))
    simp only [nonZeroAmountOkL, Bool.and_eq_true, h, and_true]
    rw [nonZeroLookahead_iff _ hnl, hpf, exists19_iff_not_all48 _ hdigits]
    simp only [ne_eq, Option.some.injEq]
    rw [mkNum_false_eq_zero_iff]
    rw [show digitsVal ([] : List Char) = 0 from rfl]
    rw [digitsVal_eq_zero_iff _ hdigits]
    simp
  case h_2 fp heq =>
    -- fraction part: s = digits ++ '.' :: fraction digits
    rw [heq] at hs
    have hfpd : ∀ c ∈ fp, isDigitB c = true := by
      unfold fracPartOk at hrest
      rw [Bool.and_eq_true] at hrest
      exact fun c hc => List.all_eq_true.mp hrest.2 c hc
    rw [show (c0 :: ip') ++ '.' :: fp = c0 :: (ip' ++ '.' :: fp) from rfl] at hs
    subst hs
    have hpf : parseFloatQ (c0 :: (ip' ++ '.' :: fp)) =
        some (mkNum false (c0 :: ip') fp) := by
      rw [parseFloatQ_digit_head c0 (ip' ++ '.' :: fp) hc0, htake, heq]
      rw [show pfqFrac ('.' :: fp) = fp.takeWhile isDigitB from rfl]
      rw [takeWhile_eq_self_of_all isDigitB fp hfpd]
    have hmem : ∀ c : Char, c ∈ c0 :: (ip' ++ '.' :: fp) ↔
        (c ∈ c0 :: ip' ∨ c = '.' ∨ c ∈ fp) := by
      intro c
      simp only [List.mem_cons, List.mem_append]
      tauto
    have hnl : ∀ c ∈ c0 :: (ip' ++ '.' :: fp), jsIsLineTerm c = false := by
      intro c hc
      rcases (hmem c).mp hc with hin | rfl | hin
      · exact digit_or_dot_not_lineterm (Or.inl (hdigits c hin))
      · exact digit_or_dot_not_lineterm (Or.inr rfl)
      · exact digit_or_dot_not_lineterm (Or.inl (hfpd c hin))
    simp only [nonZeroAmountOkL, Bool.and_eq_true, h, and_true]
    rw [nonZeroLookahead_iff _ hnl, hpf]
    simp only [ne_eq, Option.some.injEq]
    rw [mkNum_false_eq_zero_iff, digitsVal_eq_zero_iff _ hdigits,
      digitsVal_eq_zero_iff _ hfpd]
    constructor
    · rintro ⟨c, hc, h1, h2⟩ ⟨ha, hb⟩
      rcases (hmem c).mp hc with hin | rfl | hin
      · have := ha c hin; omega
      · have : ('.').toNat = 46 := by decide
        omega
      · have := hb c hin; omega
    · intro hno
      by_cases ha : ∀ c ∈ c0 :: ip', c.toNat = 48
      · have hb : ¬ ∀ c ∈ fp, c.toNat = 48 := fun hb => hno ⟨ha, hb⟩
        push_neg at hb
        obtain ⟨c, hc, hne⟩ := hb
        have hcb := isDigitB_bounds (hfpd c hc)
        exact ⟨c, (hmem c).mpr (Or.inr (Or.inr hc)), by omega, hcb.2⟩
      · push_neg at ha
        obtain ⟨c, hc, hne⟩ := ha
        have hcb := isDigitB_bounds (hdigits c hc)
        exact ⟨c, (hmem c).mpr (Or.inl hc), by omega, hcb.2⟩
  case h_3 =>
    exact absurd hrest (by decide)

/-- C10 witness: the amount string `"0.00"` matches the amount pattern, and
the equivalence instantiates to it. -/
theorem nonZeroAmount_refines_C10_witness :
    amountOkL ['0', '.', '0', '0'] = true ∧
    (nonZeroAmountOkL ['0', '.', '0', '0'] = true ↔
      parseFloatQ ['0', '.', '0', '0'] ≠ some 0) :=
  ⟨by decide, nonZeroAmount_refines_C10 ['0', '.', '0', '0'] (by decide)⟩

/-- The record invariant of the data model (spec §3): a record is a fully
populated object whose `id` and `createdAt` are truthy.  Every record the
store itself writes satisfies it (`normalise` backfills falsy ids and
timestamps); only raw, never-normalised storage contents can violate it. -/
def WFRecord (v : JSVal) : Prop :=
  (∃ fs, v = JSVal.object fs) ∧
  truthy (fieldOf v "id") = true ∧ truthy (fieldOf v "createdAt") = true

theorem WFRecord.ne_null {v : JSVal} (h : WFRecord v) :
    v ≠ JSVal.null ∧ v ≠ JSVal.undefined := by
  obtain ⟨⟨fs, rfl⟩, _, _⟩ := h
  exact ⟨(fun hh => nomatch hh), (fun hh => nomatch hh)⟩

theorem jsStrictEq_eq : ∀ a b : JSVal, jsStrictEq a b = true → a = b := by
  intro a b h
  cases a <;> cases b <;> first
    | rfl
    | exact Bool.noConfusion h
    | skip
  case boolean.boolean x y =>
    exact congrArg JSVal.boolean (eq_of_beq h)
  case number.number x y =>
    cases x with
    | none =>
      cases y with
      | none => exact Bool.noConfusion h
      | some b => exact Bool.noConfusion h
    | some a =>
      cases y with
      | none => exact Bool.noConfusion h
      | some b => exact congrArg (fun q => JSVal.number (some q)) (eq_of_beq h)
  case str.str x y =>
    exact congrArg JSVal.str (eq_of_beq h)

theorem findIndexById_total (id : JSVal) :
    ∀ l : List JSVal, (∀ r ∈ l, r ≠ JSVal.null ∧ r ≠ JSVal.undefined) →
      ∃ o, findIndexById l id = .ok o := by
  intro l
  induction l with
  | nil => exact fun _ => ⟨none, rfl⟩
  | cons r rs ih =>
    intro h
    obtain ⟨h1, h2⟩ := h r (List.mem_cons_self r rs)
    have hget := jsGet_ok_of_ne r h1 h2 "id"
    obtain ⟨o, ho⟩ := ih (fun y hy => h y (List.mem_cons_of_mem r hy))
    by_cases hq : jsStrictEq (fieldOf r "id") id = true
    · exact ⟨some 0, by simp [findIndexById, hget, hq]⟩
    · exact ⟨o.map (· + 1), by simp [findIndexById, hget, hq, ho]⟩

theorem findIndexById_cons (r : JSVal) (rs : List JSVal) (id : JSVal) :
    findIndexById (r :: rs) id =
      (jsGet r "id" >>= fun rid =>
        if jsStrictEq rid id then .ok (some 0)
        else (findIndexById rs id) >>= fun o => .ok (o.map (· + 1))) := rfl

theorem findIndexById_some (id : JSVal) :
    ∀ l : List JSVal, ∀ idx, findIndexById l id = .ok (some idx) →
      idx < l.length ∧
      ∃ rid, jsGet (l.getD idx .undefined) "id" = .ok rid ∧ jsStrictEq rid id = true := by
  intro l
  induction l with
  | nil =>
    intro idx h
    exact Option.noConfusion (Except.ok.inj h)
  | cons r rs ih =>
    intro idx h
    rw [findIndexById_cons] at h
    rcases hg : jsGet r "id" with e | rid
    · rw [hg] at h
      exact Except.noConfusion h
    · rw [hg, exceptBind_ok] at h
      by_cases hq : jsStrictEq rid id = true
      · rw [if_pos hq] at h
        have hidx : idx = 0 := (Option.some.inj (Except.ok.inj h)).symm
        subst hidx
        exact ⟨Nat.succ_pos _, rid, hg, hq⟩
      · rw [if_neg hq] at h
        rcases hrec : findIndexById rs id with e | o
        · rw [hrec] at h
          exact Except.noConfusion h
        · rw [hrec, exceptBind_ok] at h
          have ho := Except.ok.inj h
          cases o with
          | none => exact Option.noConfusion ho
          | some j =>
            have hidx : idx = j + 1 := by
              simpa using ho.symm
            subst hidx
            obtain ⟨hlt, rid', hget', hq'⟩ := ih j hrec
            exact ⟨Nat.succ_lt_succ hlt, rid', by simpa using hget', hq'⟩

theorem normalise_object_fields (now c : Nat) (fs : List (String × JSVal)) :
    ∃ u c2, normalise now c (.object fs) = .ok (u, c2) ∧
      (truthy (fieldOf (JSVal.object fs) "id") = true →
        fieldOf u "id" = fieldOf (JSVal.object fs) "id" ∧ c2 = c) ∧
      fieldOf u "createdAt" =
        orElse (fieldOf (JSVal.object fs) "createdAt") (.str (isoString now)) ∧
      fieldOf u "updatedAt" =
        orElse (fieldOf (JSVal.object fs) "updatedAt") (.str (isoString now)) := by
  refine ⟨_, _, rfl, ?_, rfl, rfl⟩
  intro ht
  constructor
  · show (if truthy (fieldOf (JSVal.object fs) "id") = true then
        (fieldOf (JSVal.object fs) "id", c)
        else (JSVal.str (genIdStr now (c + 1)), c + 1)).1 =
      fieldOf (JSVal.object fs) "id"
    rw [if_pos ht]
  · show (if truthy (fieldOf (JSVal.object fs) "id") = true then
        (fieldOf (JSVal.object fs) "id", c)
        else (JSVal.str (genIdStr now (c + 1)), c + 1)).2 = c
    rw [if_pos ht]

/-- C6: over any collection satisfying the data model's record invariant,
an update with an absent id is a no-op returning the not-found value
`null`; an update on a present id preserves the record's `id` and
`createdAt` whatever the partial-field input supplies, refreshes
`updatedAt` to the current clock, writes back in place and leaves every
other record untouched (and the lookup itself never throws). -/
theorem updateRecord_frame_C6 (now : Nat) (st : StoreState) (id : JSVal)
    (updates : List (String × JSVal)) (hwf : ∀ r ∈ st.records, WFRecord r) :
    (∃ o, findIndexById st.records id = .ok o) ∧
    (findIndexById st.records id = .ok none →
      updateRecord now st id updates = .ok (.null, st)) ∧
    (∀ idx, findIndexById st.records id = .ok (some idx) →
      ∃ updated, updateRecord now st id updates =
          .ok (updated, ⟨st.records.set idx updated, st.counter⟩) ∧
        fieldOf updated "id" = fieldOf (st.records.getD idx .undefined) "id" ∧
        fieldOf updated "createdAt" = fieldOf (st.records.getD idx .undefined) "createdAt" ∧
        fieldOf updated "updatedAt" = JSVal.str (isoString now) ∧
        ∀ j, j ≠ idx →
          (st.records.set idx updated).getD j .undefined = st.records.getD j .undefined) := by
  refine ⟨findIndexById_total id st.records
    (fun r hr => (hwf r hr).ne_null), fun hnone => ?_, fun idx hfind => ?_⟩
  · unfold updateRecord
    rw [hnone]
    rfl
  · obtain ⟨hlt, rid, hgetid, hq⟩ := findIndexById_some id st.records idx hfind
    have hpmem : st.records.getD idx .undefined ∈ st.records := by
      rw [List.getD_eq_getElem?_getD, List.getElem?_eq_getElem hlt]
      exact List.getElem_mem hlt
    obtain ⟨⟨pfs, hpfs⟩, hidtr, hcatr⟩ := hwf _ hpmem
    have hne := (hwf _ hpmem).ne_null
    have hgetca := jsGet_ok_of_ne _ hne.1 hne.2 "createdAt"
    have hrid : rid = fieldOf (st.records.getD idx .undefined) "id" := by
      have := jsGet_ok_of_ne _ hne.1 hne.2 "id"
      rw [this] at hgetid
      exact (Except.ok.inj hgetid).symm
    have hideq : id = fieldOf (st.records.getD idx .undefined) "id" :=
      (jsStrictEq_eq rid id hq) ▸ hrid
    -- the merged object handed to normalise
    have hmfields : ∃ mfs, JSVal.object
        (("updatedAt", JSVal.str (isoString now)) ::
         ("createdAt", fieldOf (st.records.getD idx .undefined) "createdAt") ::
         ("id", id) :: (updates ++ fieldsOf (st.records.getD idx .undefined))) =
        JSVal.object mfs := ⟨_, rfl⟩
    obtain ⟨u, c2, hnorm, hidfun, hcaf, huaf⟩ := normalise_object_fields now st.counter
      (("updatedAt", JSVal.str (isoString now)) ::
       ("createdAt", fieldOf (st.records.getD idx .undefined) "createdAt") ::
       ("id", id) :: (updates ++ fieldsOf (st.records.getD idx .undefined)))
    have hmid : fieldOf (JSVal.object
        (("updatedAt", JSVal.str (isoString now)) ::
         ("createdAt", fieldOf (st.records.getD idx .undefined) "createdAt") ::
         ("id", id) :: (updates ++ fieldsOf (st.records.getD idx .undefined)))) "id" = id := rfl
    have hmca : fieldOf (JSVal.object
        (("updatedAt", JSVal.str (isoString now)) ::
         ("createdAt", fieldOf (st.records.getD idx .undefined) "createdAt") ::
         ("id", id) :: (updates ++ fieldsOf (st.records.getD idx .undefined)))) "createdAt" =
        fieldOf (st.records.getD idx .undefined) "createdAt" := rfl
    have hmua : fieldOf (JSVal.object
        (("updatedAt", JSVal.str (isoString now)) ::
         ("createdAt", fieldOf (st.records.getD idx .undefined) "createdAt") ::
         ("id", id) :: (updates ++ fieldsOf (st.records.getD idx .undefined)))) "updatedAt" =
        JSVal.str (isoString now) := rfl
    have htrid : truthy (fieldOf (JSVal.object
        (("updatedAt", JSVal.str (isoString now)) ::
         ("createdAt", fieldOf (st.records.getD idx .undefined) "createdAt") ::
         ("id", id) :: (updates ++ fieldsOf (st.records.getD idx .undefined)))) "id") = true := by
      rw [hmid, hideq]
      exact hidtr
    obtain ⟨hidu, hc2⟩ := hidfun htrid
    have hun : updateRecord now st id updates =
        .ok (u, StoreState.mk (st.records.set idx u) c2) := by
      unfold updateRecord
      rw [hfind]
      simp only [exceptBind_ok]
      show (jsGet (st.records.getD idx .undefined) "createdAt" >>= fun ca =>
        (normalise now st.counter (JSVal.object
          (("updatedAt", JSVal.str (isoString now)) :: ("createdAt", ca) ::
           ("id", id) :: (updates ++ fieldsOf (st.records.getD idx .undefined)))) >>=
          fun p => .ok (p.1, StoreState.mk (st.records.set idx p.1) p.2))) =
        .ok (u, StoreState.mk (st.records.set idx u) c2)
      rw [hgetca]
      simp only [exceptBind_ok]
      rw [hnorm]
      simp only [exceptBind_ok]
    refine ⟨u, ?_, ?_, ?_, ?_, ?_⟩
    · rw [hun, hc2]
    · rw [hidu, hmid, hideq]
    · rw [hcaf, hmca]
      show orElse (fieldOf (st.records.getD idx .undefined) "createdAt")
          (.str (isoString now)) = fieldOf (st.records.getD idx .undefined) "createdAt"
      unfold orElse
      rw [if_pos hcatr]
    · rw [huaf, hmua]
      rfl
    · intro j hj
      rw [List.getD_eq_getElem?_getD, List.getD_eq_getElem?_getD,
        List.getElem?_set_ne (Ne.symm hj)]

/-- Sample well-formed one-record store for the update witness. -/
def exSt6C : StoreState :=
  StoreState.mk
    [JSVal.object [("id", JSVal.str "a"), ("createdAt", JSVal.str "c0"),
                   ("updatedAt", JSVal.str "u0")]] 4

/-- C6 witness: updating the one existing record with a partial `amount`
field preserves its `id` and `createdAt`, refreshes `updatedAt`, and
touches no other slot. -/
theorem updateRecord_frame_C6_witness :
    ∃ updated, updateRecord 7 exSt6C (JSVal.str "a")
        [("amount", JSVal.number (some 3))] =
        .ok (updated, StoreState.mk (exSt6C.records.set 0 updated) exSt6C.counter) ∧
      fieldOf updated "id" = fieldOf (exSt6C.records.getD 0 .undefined) "id" ∧
      fieldOf updated "createdAt" = fieldOf (exSt6C.records.getD 0 .undefined) "createdAt" ∧
      fieldOf updated "updatedAt" = JSVal.str (isoString 7) ∧
      ∀ j, j ≠ 0 →
        (exSt6C.records.set 0 updated).getD j .undefined = exSt6C.records.getD j .undefined :=
  (updateRecord_frame_C6 7 exSt6C (JSVal.str "a") [("amount", JSVal.number (some 3))]
    (by intro r hr
        simp only [exSt6C, List.mem_cons, List.not_mem_nil, or_false] at hr
        subst hr
        exact ⟨⟨_, rfl⟩, by decide, by decide⟩)).2.2 0 rfl

/-- Inverse of `b36Char` on the digit characters. -/
def c36 (c : Char) : Nat :=
  if c.toNat ≤ 57 then c.toNat - 48 else c.toNat - 87

/-- Value of a least-significant-first base-36 digit-character list. -/
def valRev36 : List Char → Nat
  | [] => 0
  | c :: rest => c36 c + 36 * valRev36 rest

theorem c36_b36Char : ∀ d, d < 36 → c36 (b36Char d) = d := by decide

theorem b36Char_ne_underscore : ∀ d, d < 36 → b36Char d ≠ '_' := by decide

theorem valRev36_b36Rev : ∀ fuel n, n ≤ fuel → valRev36 (b36Rev 36 fuel n) = n := by
  intro fuel
  induction fuel with
  | zero =>
    intro n hn
    have : n = 0 := Nat.le_zero.mp hn
    subst this
    rfl
  | succ fuel ih =>
    intro n hn
    by_cases hz : n = 0
    · subst hz
      rfl
    · show valRev36 (if n = 0 then [] else b36Char (n % 36) :: b36Rev 36 fuel (n / 36)) = n
      rw [if_neg hz]
      show c36 (b36Char (n % 36)) + 36 * valRev36 (b36Rev 36 fuel (n / 36)) = n
      have hmod : n % 36 < 36 := Nat.mod_lt _ (by norm_num)
      have hdiv : n / 36 ≤ fuel := by
        have h1 : n / 36 < n := Nat.div_lt_self (Nat.pos_of_ne_zero hz) (by norm_num)
        omega
      rw [c36_b36Char _ hmod, ih _ hdiv]
      omega

theorem b36Rev_nonzero_ne_single_zero (fuel n : Nat) (hn : n ≠ 0) (hf : n ≤ fuel) :
    valRev36 (b36Rev 36 fuel n) ≠ 0 := by
  rw [valRev36_b36Rev fuel n hf]
  exact hn

theorem natToBase36_inj : ∀ m n, natToBase 36 m = natToBase 36 n → m = n := by
  intro m n h
  unfold natToBase at h
  by_cases hm : m = 0 <;> by_cases hn : n = 0
  · omega
  · rw [if_pos hm, if_neg hn] at h
    have hrev : b36Rev 36 n n = ['0'] := by
      have := congrArg List.reverse h
      simpa using this.symm
    have := valRev36_b36Rev n n (Nat.le_refl n)
    rw [hrev] at this
    have h0 : valRev36 ['0'] = 0 := by decide
    omega
  · rw [if_neg hm, if_pos hn] at h
    have hrev : b36Rev 36 m m = ['0'] := by
      have := congrArg List.reverse h
      simpa using this
    have := valRev36_b36Rev m m (Nat.le_refl m)
    rw [hrev] at this
    have h0 : valRev36 ['0'] = 0 := by decide
    omega
  · rw [if_neg hm, if_neg hn] at h
    have hrev : b36Rev 36 m m = b36Rev 36 n n := by
      have := congrArg List.reverse h
      simpa using this
    have h1 := valRev36_b36Rev m m (Nat.le_refl m)
    have h2 := valRev36_b36Rev n n (Nat.le_refl n)
    rw [hrev] at h1
    omega

theorem b36Rev_chars (b : Nat) (hb1 : 0 < b) (hb2 : b ≤ 36) :
    ∀ fuel n, ∀ c ∈ b36Rev b fuel n, ∃ d, d < 36 ∧ c = b36Char d := by
  intro fuel
  induction fuel with
  | zero => intro n c hc; cases hc
  | succ fuel ih =>
    intro n c hc
    by_cases hz : n = 0
    · rw [show b36Rev b (fuel + 1) n = if n = 0 then []
        else b36Char (n % b) :: b36Rev b fuel (n / b) from rfl, if_pos hz] at hc
      cases hc
    · rw [show b36Rev b (fuel + 1) n = if n = 0 then []
        else b36Char (n % b) :: b36Rev b fuel (n / b) from rfl, if_neg hz] at hc
      rcases List.mem_cons.mp hc with rfl | hc
      · exact ⟨n % b, Nat.lt_of_lt_of_le (Nat.mod_lt _ hb1) hb2, rfl⟩
      · exact ih _ c hc

theorem natToBase_no_underscore (b : Nat) (hb1 : 0 < b) (hb2 : b ≤ 36) (n : Nat) :
    '_' ∉ natToBase b n := by
  intro hmem
  unfold natToBase at hmem
  by_cases hz : n = 0
  · rw [if_pos hz] at hmem
    rcases List.mem_singleton.mp hmem with h
    exact absurd h.symm (by decide)
  · rw [if_neg hz] at hmem
    obtain ⟨d, hd, hc⟩ := b36Rev_chars b hb1 hb2 n n '_' (List.mem_reverse.mp hmem)
    exact b36Char_ne_underscore d hd hc.symm

theorem sep_split : ∀ (l1 : List Char) (r1 : List Char) (l2 : List Char) (r2 : List Char),
    '_' ∉ l1 → '_' ∉ l2 → l1 ++ '_' :: r1 = l2 ++ '_' :: r2 → l1 = l2 ∧ r1 = r2 := by
  intro l1
  induction l1 with
  | nil =>
    intro r1 l2 r2 _ hn2 h
    cases l2 with
    | nil =>
      simp only [List.nil_append] at h
      exact ⟨rfl, List.cons.inj h |>.2⟩
    | cons d l2' =>
      simp only [List.nil_append, List.cons_append] at h
      obtain ⟨hd, _⟩ := List.cons.inj h
      exact absurd (List.mem_cons_self d l2') (hd ▸ hn2)
  | cons c l1' ih =>
    intro r1 l2 r2 hn1 hn2 h
    cases l2 with
    | nil =>
      simp only [List.nil_append, List.cons_append] at h
      obtain ⟨hd, _⟩ := List.cons.inj h
      exact absurd (List.mem_cons_self c l1') (hd ▸ hn1)
    | cons d l2' =>
      simp only [List.cons_append] at h
      obtain ⟨hd, ht⟩ := List.cons.inj h
      obtain ⟨he, hr⟩ := ih r1 l2' r2
        (fun hm => hn1 (List.mem_cons_of_mem c hm))
        (fun hm => hn2 (List.mem_cons_of_mem d hm)) ht
      exact ⟨by rw [hd, he], hr⟩

theorem genIdStr_counter_inj (t1 c1 t2 c2 : Nat)
    (h : genIdStr t1 c1 = genIdStr t2 c2) : c1 = c2 := by
  have hchars : genIdChars t1 c1 = genIdChars t2 c2 := congrArg String.data h
  unfold genIdChars at hchars
  have ht : natToBase 10 t1 ++ '_' :: natToBase 36 c1 =
      natToBase 10 t2 ++ '_' :: natToBase 36 c2 := by
    injection hchars with _ h1
    injection h1 with _ h2
    injection h2 with _ h3
    injection h3 with _ h4
  obtain ⟨_, hr⟩ := sep_split _ _ _ _
    (natToBase_no_underscore 10 (by norm_num) (by norm_num) t1)
    (natToBase_no_underscore 10 (by norm_num) (by norm_num) t2) ht
  exact natToBase36_inj c1 c2 hr

theorem addRecord_ok (now : Nat) (st : StoreState) (d : JSVal)
    (h1 : truthy d = true) (h2 : isObjectLike d = true) :
    ∃ rec, addRecord now st d =
        .ok (rec, StoreState.mk (st.records ++ [rec]) (st.counter + 1)) ∧
      fieldOf rec "id" = JSVal.str (genIdStr now (st.counter + 1)) ∧
      fieldOf rec "createdAt" = JSVal.str (isoString now) ∧
      fieldOf rec "updatedAt" = JSVal.str (isoString now) := by
  obtain ⟨u, c2, hnorm, hidfun, hcaf, huaf⟩ := normalise_object_fields now (st.counter + 1)
    (("id", JSVal.str (genIdStr now (st.counter + 1))) ::
     ("createdAt", JSVal.str (isoString now)) ::
     ("updatedAt", JSVal.str (isoString now)) :: fieldsOf d)
  have htr : truthy (fieldOf (JSVal.object
      (("id", JSVal.str (genIdStr now (st.counter + 1))) ::
       ("createdAt", JSVal.str (isoString now)) ::
       ("updatedAt", JSVal.str (isoString now)) :: fieldsOf d)) "id") = true := rfl
  obtain ⟨hidu, hc2⟩ := hidfun htr
  refine ⟨u, ?_, ?_, ?_, ?_⟩
  · unfold addRecord
    rw [h1, h2]
    show ((normalise now (st.counter + 1) (JSVal.object
        (("id", JSVal.str (genIdStr now (st.counter + 1))) ::
         ("createdAt", JSVal.str (isoString now)) ::
         ("updatedAt", JSVal.str (isoString now)) :: fieldsOf d))) >>=
      fun p => .ok (p.1, StoreState.mk (st.records ++ [p.1]) p.2)) = _
    rw [hnorm, exceptBind_ok, hc2]
  · rw [hidu]
    rfl
  · rw [hcaf]
    rfl
  · rw [huaf]
    rfl

/-- A sequence of `addRecord` calls, each with its own clock value: the
composition the spec's session-uniqueness property quantifies over.
Collects the returned records. -/
def addChain : StoreState → List (Nat × JSVal) → Except String (List JSVal × StoreState)
  | st, [] => .ok ([], st)
  | st, (t, d) :: rest => do
    let p ← addRecord t st d
    let q ← addChain p.2 rest
    .ok (p.1 :: q.1, q.2)

theorem addChain_spec : ∀ (inputs : List (Nat × JSVal)) (st : StoreState),
    (∀ p ∈ inputs, truthy p.2 = true ∧ isObjectLike p.2 = true) →
    ∃ rs st', addChain st inputs = .ok (rs, st') ∧
      (∀ r ∈ rs, (∃ t c, st.counter < c ∧
          fieldOf r "id" = JSVal.str (genIdStr t c)) ∧
        fieldOf r "createdAt" = fieldOf r "updatedAt") ∧
      (rs.map (fun r => fieldOf r "id")).Pairwise (· ≠ ·) := by
  intro inputs
  induction inputs with
  | nil =>
    intro st _
    exact ⟨[], st, rfl, fun r hr => absurd hr (List.not_mem_nil r), List.Pairwise.nil⟩
  | cons p rest ih =>
    intro st hv
    obtain ⟨hp1, hp2⟩ := hv p (List.mem_cons_self p rest)
    obtain ⟨rec, hadd, hid, hca, hua⟩ := addRecord_ok p.1 st p.2 hp1 hp2
    obtain ⟨rs, st', hchain, hprops, hpw⟩ :=
      ih (StoreState.mk (st.records ++ [rec]) (st.counter + 1))
        (fun q hq => hv q (List.mem_cons_of_mem p hq))
    refine ⟨rec :: rs, st', ?_, ?_, ?_⟩
    · show (addRecord p.1 st p.2 >>= fun q =>
        (addChain q.2 rest >>= fun w => .ok (q.1 :: w.1, w.2))) = _
      rw [hadd, exceptBind_ok, hchain, exceptBind_ok]
    · intro r hr
      rcases List.mem_cons.mp hr with rfl | hr
      · exact ⟨⟨p.1, st.counter + 1, Nat.lt_succ_self _, hid⟩, by rw [hca, hua]⟩
      · obtain ⟨⟨t, c, hc, hidr⟩, hts⟩ := hprops r hr
        exact ⟨⟨t, c, by simp at hc; omega, hidr⟩, hts⟩
    · rw [List.map_cons]
      refine List.Pairwise.cons ?_ hpw
      intro b hb
      obtain ⟨r, hrmem, hrb⟩ := List.mem_map.mp hb
      obtain ⟨⟨t, c, hc, hidr⟩, _⟩ := hprops r hrmem
      have hcgt : st.counter + 1 < c := by simpa using hc
      rw [hid, ← hrb, hidr]
      intro heq
      have hstr : genIdStr p.1 (st.counter + 1) = genIdStr t c := by
        injection heq
      have := genIdStr_counter_inj _ _ _ _ hstr
      omega

/-- C5 counterexample: a reachable prior store (one persisted record with id
`"rec_5_2"`, counter seeded to the collection length 1 as on load) on which
`addRecord` at clock 5 returns a record whose id equals the previously
stored record's id — the claimed uniqueness against every previously stored
id fails. -/
theorem addRecord_id_collision_C5 :
    (addRecord 5 (StoreState.mk
        [JSVal.object [("id", JSVal.str "rec_5_2"),
                       ("createdAt", JSVal.str "t0"),
                       ("updatedAt", JSVal.str "t0")]] 1)
      (JSVal.object [])).map (fun p => fieldOf p.1 "id") =
      .ok (JSVal.str "rec_5_2") ∧
    fieldOf (JSVal.object [("id", JSVal.str "rec_5_2"),
                           ("createdAt", JSVal.str "t0"),
                           ("updatedAt", JSVal.str "t0")]) "id" =
      JSVal.str "rec_5_2" :=
  ⟨rfl, rfl⟩

/-- C5 (amended): the ids returned by any sequence of valid `addRecord`
calls from any prior state are pairwise distinct — even across calls within
the same millisecond, because the counter strictly increases — and every
returned record has `createdAt` equal to `updatedAt`; distinctness from ids
already in the store before the session (e.g. imported ones) is not
guaranteed. -/
theorem addRecord_ids_distinct_C5 (inputs : List (Nat × JSVal)) (st : StoreState)
    (hv : ∀ p ∈ inputs, truthy p.2 = true ∧ isObjectLike p.2 = true) :
    ∃ rs st', addChain st inputs = .ok (rs, st') ∧
      (∀ r ∈ rs, (∃ t c, st.counter < c ∧
          fieldOf r "id" = JSVal.str (genIdStr t c)) ∧
        fieldOf r "createdAt" = fieldOf r "updatedAt") ∧
      (rs.map (fun r => fieldOf r "id")).Pairwise (· ≠ ·) :=
  addChain_spec inputs st hv

/-- C5 witness: three adds, two of them in the same millisecond, from the
empty store: all succeeds and the conclusion instantiates. -/
theorem addRecord_ids_distinct_C5_witness :
    ∃ rs st', addChain (StoreState.mk [] 0)
        [(7, JSVal.object []), (7, JSVal.object [("description", JSVal.str "tea")]),
         (9, JSVal.object [])] = .ok (rs, st') ∧
      (∀ r ∈ rs, (∃ t c, (StoreState.mk ([] : List JSVal) 0).counter < c ∧
          fieldOf r "id" = JSVal.str (genIdStr t c)) ∧
        fieldOf r "createdAt" = fieldOf r "updatedAt") ∧
      (rs.map (fun r => fieldOf r "id")).Pairwise (· ≠ ·) :=
  addRecord_ids_distinct_C5
    [(7, JSVal.object []), (7, JSVal.object [("description", JSVal.str "tea")]),
     (9, JSVal.object [])] (StoreState.mk [] 0)
    (by intro p hp
        simp only [List.mem_cons, List.not_mem_nil, or_false] at hp
        rcases hp with rfl | rfl | rfl
        all_goals exact ⟨rfl, rfl⟩)

end SFT
